import Mathlib

/-!
Verification development for the FreeType loader of font-kit
(`src/loaders/freetype.rs`).

The Rust source is shallowly embedded below:

* 26.6 fixed-point to `f32` conversion is modelled over the rationals,
  with the `i64 as f32` cast made explicit as rounding of the integer to a
  24-bit significand (IEEE-754 binary32 round-to-nearest-even).  The
  binary32 exponent range is not modelled because it is never exercised by
  the inputs appearing in this file: no overflow (`|n| ≤ 2^63 < 2^128`) and
  no subnormals (every nonzero value arising here has magnitude `≥ 2^-6`).
* the outline decoder (`Font::outline` and its local `get_point`) is an
  index machine over the three parallel FreeType arrays; the Rust
  assertion / slice-bound panics are modelled by `Option` (`none` =
  panic);
* loading (`from_bytes` / `from_file`), the `Clone`/`Drop` reference
  counting discipline, the descriptor, metrics and name-table logic are
  embedded over an abstract record of the native `FT_Face` state, with
  native FFI results (error codes, table pointers, name records) as record
  fields.
-/

namespace FontKit

/-! ## Binary32 significand rounding (model of Rust `as f32`) -/

/-- Round-to-nearest-even of the integer `n` to a multiple of `2 ^ s`:
the rounding step of IEEE-754 binary floating point, written with
Euclidean quotient/remainder so that ties go to the even quotient. -/
def rne (n : ℤ) (s : ℕ) : ℤ :=
  if s = 0 then n
  else
    let q := Int.ediv n (2 ^ s)
    let r := Int.emod n (2 ^ s)
    let half : ℤ := 2 ^ (s - 1)
    if r < half then q * 2 ^ s
    else if half < r then (q + 1) * 2 ^ s
    else if Int.emod q 2 = 0 then q * 2 ^ s else (q + 1) * 2 ^ s

/-- Round an integer to the 24-bit significand of an IEEE-754 binary32
value: integers of magnitude at most `2 ^ 24` are exactly representable;
larger ones are rounded (to nearest, ties to even) to a multiple of
`2 ^ (⌊log2 |n|⌋ - 23)`. -/
def rnd24 (n : ℤ) : ℤ :=
  if n.natAbs ≤ 2 ^ 24 then n else rne n (n.natAbs.log2 - 23)

/-- Model of the Rust cast `fixed as f32` on an `i64`: the resulting
binary32 value, represented as an exact rational. -/
def i64_as_f32 (n : ℤ) : ℚ := (rnd24 n : ℚ)

/-- Embedding of `ft_fixed_26_6_to_f32` (freetype.rs line 522):
`(fixed as f32) / 64.0`.  Dividing a binary32 value by `64.0` only
shifts its exponent, which is exact for every value in play here (no
overflow, no subnormals), so the division is modelled as exact rational
division. -/
def ft_fixed_26_6_to_f32 (fixed : ℤ) : ℚ :=
  i64_as_f32 fixed / 64

theorem rnd24_small {n : ℤ} (h : n.natAbs ≤ 2 ^ 24) : rnd24 n = n := by
  unfold rnd24
  rw [if_pos h]

/-- C4: for every 26.6 fixed-point integer `v`, the conversion performs
exactly the division by 64 — multiplying the result back by 64 recovers
the binary32 representation of `v`, i.e. the division step introduces no
rounding beyond the float representation of `v` itself; whenever `v` is
exactly representable (in particular whenever `|v| ≤ 2 ^ 24`) the result
is exactly `v / 64`, and rounding the scaled-back result to the nearest
26.6 integer recovers `v`. -/
theorem c4_fixed_point_conversion_exact (v : ℤ) :
    ft_fixed_26_6_to_f32 v * 64 = i64_as_f32 v ∧
    (rnd24 v = v →
      ft_fixed_26_6_to_f32 v = (v : ℚ) / 64 ∧
      round (ft_fixed_26_6_to_f32 v * 64) = v) ∧
    (v.natAbs ≤ 2 ^ 24 → rnd24 v = v) := by
  refine ⟨?_, ?_, fun h => rnd24_small h⟩
  · have h64 : (64 : ℚ) ≠ 0 := by norm_num
    simp [ft_fixed_26_6_to_f32, div_mul_cancel₀ _ h64]
  · intro hrep
    constructor
    · simp [ft_fixed_26_6_to_f32, i64_as_f32, hrep]
    · have h64 : (64 : ℚ) ≠ 0 := by norm_num
      simp [ft_fixed_26_6_to_f32, i64_as_f32, hrep, div_mul_cancel₀ _ h64,
        round_intCast]

/-- Witness for C4 at `v = 65` (one unit and one sixty-fourth): the
hypotheses of `c4_fixed_point_conversion_exact` hold there. -/
theorem c4_witness :
    ft_fixed_26_6_to_f32 65 * 64 = i64_as_f32 65 ∧
    ft_fixed_26_6_to_f32 65 = (65 : ℚ) / 64 ∧
    round (ft_fixed_26_6_to_f32 65 * 64) = (65 : ℤ) ∧
    rnd24 65 = 65 :=
  ⟨(c4_fixed_point_conversion_exact 65).1,
   ((c4_fixed_point_conversion_exact 65).2.1 (by decide)).1,
   ((c4_fixed_point_conversion_exact 65).2.1 (by decide)).2,
   (c4_fixed_point_conversion_exact 65).2.2 (by decide)⟩

/-! ## Outline decoder (`Font::outline`, freetype.rs lines 226-290) -/

/-- FreeType point tag bit 0: the point lies on the curve. -/
def FT_POINT_TAG_ON_CURVE : ℤ := 0x01

/-- FreeType point tag bit 1: the point is an off-curve cubic control. -/
def FT_POINT_TAG_CUBIC_CONTROL : ℤ := 0x02

/-- A path-construction command: the events `Font::outline` feeds to its
`PathBuilder` argument. -/
inductive PathCmd
  | move_to (p : ℚ × ℚ)
  | line_to (p : ℚ × ℚ)
  | quadratic_to (ctrl endpoint : ℚ × ℚ)
  | cubic_to (ctrl1 ctrl2 endpoint : ℚ × ℚ)
  | close
deriving DecidableEq, Repr

/-- Embedding of the local `get_point` (lines 277-289): assert that the
running point index has not passed the contour's last index, read the
position and tag there, advance past it (the caller advances the index),
and convert the position.  `none` models the assertion failure, or the
slice-bounds panic when the declared last index lies beyond the arrays. -/
def get_point (pts : List (ℤ × ℤ)) (tags : List ℤ)
    (last idx : ℕ) : Option ((ℚ × ℚ) × ℤ) :=
  if idx ≤ last then
    match pts[idx]?, tags[idx]? with
    | some p, some t =>
        some ((ft_fixed_26_6_to_f32 p.1, ft_fixed_26_6_to_f32 p.2), t)
    | _, _ => none
  else none

/-- The `while current_point_index <= last_point_index_in_contour` loop of
`Font::outline` (lines 249-271) for one contour, entered after the initial
`move_to` point was consumed: returns the emitted commands together with
the final value of the running point index; `none` models a panic. -/
def contour_rest (pts : List (ℤ × ℤ)) (tags : List ℤ)
    (last idx : ℕ) : Option (List PathCmd × ℕ) :=
  if _h : idx ≤ last then
    match get_point pts tags last idx with
    | none => none
    | some (point0, tag) =>
      if Int.land tag FT_POINT_TAG_ON_CURVE ≠ 0 then
        match contour_rest pts tags last (idx + 1) with
        | none => none
        | some (cmds, fin) => some (PathCmd.line_to point0 :: cmds, fin)
      else
        match get_point pts tags last (idx + 1) with
        | none => none
        | some (point1, _) =>
          if Int.land tag FT_POINT_TAG_CUBIC_CONTROL ≠ 0 then
            match get_point pts tags last (idx + 2) with
            | none => none
            | some (point2, _) =>
              match contour_rest pts tags last (idx + 3) with
              | none => none
              | some (cmds, fin) =>
                some (PathCmd.cubic_to point0 point1 point2 :: cmds, fin)
          else
            match contour_rest pts tags last (idx + 2) with
            | none => none
            | some (cmds, fin) =>
              some (PathCmd.quadratic_to point0 point1 :: cmds, fin)
  else some ([], idx)
termination_by last + 1 - idx
decreasing_by all_goals omega

/-- The per-contour loop of `Font::outline` (lines 241-273): the running
point index is threaded from one contour to the next; each contour begins
with an unconditional `move_to` and ends with one `close`. -/
def outline_go (pts : List (ℤ × ℤ)) (tags : List ℤ) :
    List ℕ → ℕ → Option (List PathCmd)
  | [], _ => some []
  | last :: rest, idx =>
    match get_point pts tags last idx with
    | none => none
    | some (point, _) =>
      match contour_rest pts tags last (idx + 1) with
      | none => none
      | some (cmds, fin) =>
        match outline_go pts tags rest fin with
        | none => none
        | some more =>
          some ((PathCmd.move_to point :: cmds ++ [PathCmd.close]) ++ more)

/-- Embedding of the body of `Font::outline` after a successful
`FT_Load_Glyph`: `contours` is the slice of per-contour last point
indices, `pts` and `tags` the glyph's parallel point arrays (both of
length `n_points`).  `none` models a panic. -/
def outline_decode (pts : List (ℤ × ℤ)) (tags : List ℤ)
    (contours : List ℕ) : Option (List PathCmd) :=
  outline_go pts tags contours 0

/-! Spec-side decoder, written from claim C1's wording: contours are the
slices of the point array delimited by the declared last indices, and each
contour is decoded on its own, as a list, with no index bookkeeping. -/

/-- The converted (point, tag) array of a glyph. -/
def ft_points (pts : List (ℤ × ℤ)) (tags : List ℤ) :
    List ((ℚ × ℚ) × ℤ) :=
  (pts.map fun p => (ft_fixed_26_6_to_f32 p.1, ft_fixed_26_6_to_f32 p.2)).zip
    tags

/-- The points of one contour as the spec sees them: the entries of the
(point, tag) array from index `idx` up to and including index `last`
(cut short if the array itself ends first). -/
def contour_slice (zipped : List ((ℚ × ℚ) × ℤ)) (idx last : ℕ) :
    List ((ℚ × ℚ) × ℤ) :=
  (zipped.take (last + 1)).drop idx

/-- Spec-side walk of a contour's points after the first one: an on-curve
point emits a `line_to`; an off-curve point with the cubic-control bit set
consumes the two following points as second control and endpoint of a
`cubic_to`; an off-curve point without that bit consumes the one following
point as endpoint of a `quadratic_to`.  `none` when an off-curve point
lacks the following points it needs (the glyph is then not well formed). -/
def spec_walk : List ((ℚ × ℚ) × ℤ) → Option (List PathCmd)
  | [] => some []
  | (p0, tag) :: rest =>
    if Int.land tag FT_POINT_TAG_ON_CURVE ≠ 0 then
      (spec_walk rest).map fun cmds => PathCmd.line_to p0 :: cmds
    else if Int.land tag FT_POINT_TAG_CUBIC_CONTROL ≠ 0 then
      match rest with
      | (p1, _) :: (p2, _) :: rest2 =>
        (spec_walk rest2).map fun cmds => PathCmd.cubic_to p0 p1 p2 :: cmds
      | _ => none
    else
      match rest with
      | (p1, _) :: rest1 =>
        (spec_walk rest1).map fun cmds => PathCmd.quadratic_to p0 p1 :: cmds
      | [] => none

/-- Spec-side decoding of a whole glyph, per claim C1: for each contour in
order, a `move_to` for the contour's first point regardless of its tag,
the walk of the remaining points up to and including the contour's last
index, and exactly one `close`. -/
def spec_contours (zipped : List ((ℚ × ℚ) × ℤ)) :
    List ℕ → ℕ → Option (List PathCmd)
  | [], _ => some []
  | last :: rest, start =>
    match contour_slice zipped start last with
    | [] => none
    | (p, _) :: tl =>
      match spec_walk tl, spec_contours zipped rest (last + 1) with
      | some cmds, some more =>
        some ((PathCmd.move_to p :: cmds ++ [PathCmd.close]) ++ more)
      | _, _ => none

/-! ### Refinement: the index machine against the per-contour spec -/

theorem spec_walk_cons (p0 : ℚ × ℚ) (tag : ℤ)
    (rest : List ((ℚ × ℚ) × ℤ)) :
    spec_walk ((p0, tag) :: rest) =
      if Int.land tag FT_POINT_TAG_ON_CURVE ≠ 0 then
        (spec_walk rest).map fun cmds => PathCmd.line_to p0 :: cmds
      else if Int.land tag FT_POINT_TAG_CUBIC_CONTROL ≠ 0 then
        match rest with
        | (p1, _) :: (p2, _) :: rest2 =>
          (spec_walk rest2).map fun cmds => PathCmd.cubic_to p0 p1 p2 :: cmds
        | _ => none
      else
        match rest with
        | (p1, _) :: rest1 =>
          (spec_walk rest1).map fun cmds => PathCmd.quadratic_to p0 p1 :: cmds
        | [] => none := by
  cases rest with
  | nil => rfl
  | cons hd tl =>
    obtain ⟨p1, t1⟩ := hd
    cases tl with
    | nil => rfl
    | cons hd2 tl2 =>
      obtain ⟨p2, t2⟩ := hd2
      rfl

theorem ft_points_length (pts : List (ℤ × ℤ)) (tags : List ℤ)
    (hlen : tags.length = pts.length) :
    (ft_points pts tags).length = pts.length := by
  simp [ft_points, hlen]

theorem ft_points_getElem? (pts : List (ℤ × ℤ)) (tags : List ℤ) (idx : ℕ) :
    (ft_points pts tags)[idx]? =
      match pts[idx]?, tags[idx]? with
      | some p, some t =>
          some ((ft_fixed_26_6_to_f32 p.1, ft_fixed_26_6_to_f32 p.2), t)
      | _, _ => none := by
  cases hp : pts[idx]? <;> cases ht : tags[idx]? <;>
    simp [ft_points, List.zip, List.getElem?_zipWith, hp, ht]

theorem get_point_eq_of_le (pts : List (ℤ × ℤ)) (tags : List ℤ)
    {last idx : ℕ} (h : idx ≤ last) :
    get_point pts tags last idx = (ft_points pts tags)[idx]? := by
  rw [get_point, if_pos h, ft_points_getElem?]

theorem contour_slice_of_gt (z : List ((ℚ × ℚ) × ℤ)) {idx last : ℕ}
    (h : last < idx) : contour_slice z idx last = [] := by
  refine List.drop_eq_nil_of_le ?_
  rw [List.length_take]
  exact le_trans (min_le_left _ _) (by omega)

theorem contour_slice_nil (z : List ((ℚ × ℚ) × ℤ)) {idx last : ℕ}
    (hz : z.length ≤ idx) : contour_slice z idx last = [] := by
  refine List.drop_eq_nil_of_le ?_
  rw [List.length_take]
  exact le_trans (min_le_right _ _) hz

theorem contour_slice_cons (z : List ((ℚ × ℚ) × ℤ)) {idx last : ℕ}
    (hle : idx ≤ last) {a : (ℚ × ℚ) × ℤ} (ha : z[idx]? = some a) :
    contour_slice z idx last = a :: contour_slice z (idx + 1) last := by
  have hidx : idx < z.length := by
    rcases List.getElem?_eq_some_iff.1 ha with ⟨hlt, _⟩
    exact hlt
  have h1 : idx < (z.take (last + 1)).length := by
    rw [List.length_take]
    omega
  have h2 : (z.take (last + 1))[idx]? = some a := by
    rw [List.getElem?_take_of_lt (by omega : idx < last + 1)]
    exact ha
  have h3 : (z.take (last + 1))[idx] = a := by
    rw [List.getElem?_eq_getElem h1] at h2
    exact Option.some.inj h2
  rw [contour_slice, List.drop_eq_getElem_cons h1, h3]
  rfl

theorem contour_slice_cons_inv (z : List ((ℚ × ℚ) × ℤ)) {idx last : ℕ}
    {a : (ℚ × ℚ) × ℤ} {l : List ((ℚ × ℚ) × ℤ)}
    (h : contour_slice z idx last = a :: l) :
    idx ≤ last ∧ z[idx]? = some a ∧ l = contour_slice z (idx + 1) last := by
  by_cases hle : idx ≤ last
  · cases ha : z[idx]? with
    | none =>
      rw [contour_slice_nil z (List.getElem?_eq_none_iff.1 ha)] at h
      exact absurd h (by simp)
    | some b =>
      rw [contour_slice_cons z hle ha] at h
      injection h with h1 h2
      exact ⟨hle, by rw [h1], h2.symm⟩
  · rw [contour_slice_of_gt z (by omega)] at h
    exact absurd h (by simp)

theorem contour_rest_eq_spec_walk (pts : List (ℤ × ℤ)) (tags : List ℤ)
    (hlen : tags.length = pts.length) (last : ℕ) (hlast : last < pts.length) :
    ∀ idx, idx ≤ last + 1 →
      contour_rest pts tags last idx =
        (spec_walk (contour_slice (ft_points pts tags) idx last)).map
          fun cmds => (cmds, last + 1) := by
  have hzlen : (ft_points pts tags).length = pts.length :=
    ft_points_length pts tags hlen
  have key : ∀ n idx, last + 1 - idx ≤ n → idx ≤ last + 1 →
      contour_rest pts tags last idx =
        (spec_walk (contour_slice (ft_points pts tags) idx last)).map
          fun cmds => (cmds, last + 1) := by
    intro n
    induction n with
    | zero =>
      intro idx hn hle
      have hidx : idx = last + 1 := by omega
      subst hidx
      rw [contour_rest, dif_neg (by omega), contour_slice_of_gt _ (by omega)]
      simp [spec_walk]
    | succ n ih =>
      intro idx hn hle
      by_cases h : idx ≤ last
      · have hidxlt : idx < (ft_points pts tags).length := by omega
        obtain ⟨zi, hzi⟩ : ∃ zi, (ft_points pts tags)[idx]? = some zi :=
          ⟨_, List.getElem?_eq_getElem hidxlt⟩
        obtain ⟨p0, tag⟩ := zi
        have hgp : get_point pts tags last idx = some (p0, tag) := by
          rw [get_point_eq_of_le pts tags h, hzi]
        rw [contour_rest, dif_pos h, hgp, contour_slice_cons _ h hzi]
        dsimp only
        by_cases hb0 : Int.land tag FT_POINT_TAG_ON_CURVE ≠ 0
        · rw [if_pos hb0, ih (idx + 1) (by omega) (by omega), spec_walk_cons,
            if_pos hb0]
          cases spec_walk (contour_slice (ft_points pts tags) (idx + 1) last) <;>
            simp
        · by_cases h1 : idx + 1 ≤ last
          · have h1lt : idx + 1 < (ft_points pts tags).length := by omega
            obtain ⟨z1, hz1⟩ :
                ∃ z1, (ft_points pts tags)[idx + 1]? = some z1 :=
              ⟨_, List.getElem?_eq_getElem h1lt⟩
            obtain ⟨p1, t1⟩ := z1
            have hgp1 : get_point pts tags last (idx + 1) = some (p1, t1) := by
              rw [get_point_eq_of_le pts tags h1, hz1]
            rw [if_neg hb0, hgp1, contour_slice_cons _ h1 hz1]
            dsimp only
            by_cases hb1 : Int.land tag FT_POINT_TAG_CUBIC_CONTROL ≠ 0
            · by_cases h2 : idx + 2 ≤ last
              · have h2lt : idx + 2 < (ft_points pts tags).length := by omega
                obtain ⟨z2, hz2⟩ :
                    ∃ z2, (ft_points pts tags)[idx + 2]? = some z2 :=
                  ⟨_, List.getElem?_eq_getElem h2lt⟩
                obtain ⟨p2, t2⟩ := z2
                have hgp2 :
                    get_point pts tags last (idx + 2) = some (p2, t2) := by
                  rw [get_point_eq_of_le pts tags h2, hz2]
                rw [if_pos hb1, hgp2, contour_slice_cons _ h2 hz2]
                dsimp only
                rw [ih (idx + 3) (by omega) (by omega), spec_walk_cons,
                  if_neg hb0, if_pos hb1]
                dsimp only
                cases spec_walk (contour_slice (ft_points pts tags) (idx + 3) last) <;>
                  simp
              · have hgp2 : get_point pts tags last (idx + 2) = none := by
                  rw [get_point, if_neg (by omega)]
                rw [if_pos hb1, hgp2,
                  contour_slice_of_gt _ (by omega : last < idx + 2),
                  spec_walk_cons, if_neg hb0, if_pos hb1]
                simp
            · rw [if_neg hb1, ih (idx + 2) (by omega) (by omega),
                spec_walk_cons, if_neg hb0, if_neg hb1]
              dsimp only
              cases spec_walk (contour_slice (ft_points pts tags) (idx + 2) last) <;>
                simp
          · have hgp1 : get_point pts tags last (idx + 1) = none := by
              rw [get_point, if_neg (by omega)]
            rw [if_neg hb0, hgp1,
              contour_slice_of_gt _ (by omega : last < idx + 1),
              spec_walk_cons, if_neg hb0]
            by_cases hb1 : Int.land tag FT_POINT_TAG_CUBIC_CONTROL ≠ 0
            · rw [if_pos hb1]
              simp
            · rw [if_neg hb1]
              simp
      · have hidx : idx = last + 1 := by omega
        subst hidx
        rw [contour_rest, dif_neg (by omega), contour_slice_of_gt _ (by omega)]
        simp [spec_walk]
  intro idx hle
  exact key (last + 1 - idx) idx le_rfl hle

theorem outline_go_eq_spec (pts : List (ℤ × ℤ)) (tags : List ℤ)
    (hlen : tags.length = pts.length) :
    ∀ (contours : List ℕ) (start : ℕ) (cs : List PathCmd),
      (∀ l ∈ contours, l < pts.length) →
      spec_contours (ft_points pts tags) contours start = some cs →
      outline_go pts tags contours start = some cs := by
  intro contours
  induction contours with
  | nil =>
    intro start cs _ hspec
    simp only [spec_contours] at hspec
    simpa [outline_go] using hspec
  | cons last rest ih =>
    intro start cs hb hspec
    simp only [spec_contours] at hspec
    cases hsl : contour_slice (ft_points pts tags) start last with
    | nil =>
      rw [hsl] at hspec
      exact absurd hspec (by simp)
    | cons hd tl =>
      obtain ⟨hle, hget, htl⟩ := contour_slice_cons_inv _ hsl
      rw [hsl] at hspec
      obtain ⟨p, t⟩ := hd
      dsimp only at hspec
      have hlast : last < pts.length := hb last (by simp)
      have hgp : get_point pts tags last start = some (p, t) := by
        rw [get_point_eq_of_le pts tags hle, hget]
      have hcr :
          contour_rest pts tags last (start + 1) =
            (spec_walk tl).map fun cmds => (cmds, last + 1) := by
        rw [htl]
        exact contour_rest_eq_spec_walk pts tags hlen last hlast (start + 1)
          (by omega)
      cases hw : spec_walk tl with
      | none =>
        rw [hw] at hspec
        simp at hspec
      | some cmds =>
        cases hm : spec_contours (ft_points pts tags) rest (last + 1) with
        | none =>
          rw [hw, hm] at hspec
          simp at hspec
        | some more =>
          rw [hw, hm] at hspec
          dsimp only at hspec
          injection hspec with hcs
          simp only [outline_go, hgp, hcr, hw, Option.map_some']
          rw [ih (last + 1) more (fun l hl => hb l (by simp [hl])) hm]
          dsimp only
          rw [hcs]

/-! Small evaluation facts used to settle the concrete glyph examples. -/

theorem ft_conv_0 : ft_fixed_26_6_to_f32 0 = 0 := by
  norm_num [ft_fixed_26_6_to_f32, i64_as_f32, rnd24]

theorem ft_conv_64 : ft_fixed_26_6_to_f32 64 = 1 := by
  norm_num [ft_fixed_26_6_to_f32, i64_as_f32, rnd24]

theorem land_one_one : Int.land 1 1 = 1 := by decide

theorem land_zero_one : Int.land 0 1 = 0 := by decide

theorem land_zero_two : Int.land 0 2 = 0 := by decide

theorem land_two_one : Int.land 2 1 = 0 := by decide

theorem land_two_two : Int.land 2 2 = 2 := by decide

theorem spec_quad_example :
    spec_contours (ft_points [(0, 0), (64, 0), (64, 64)] [1, 0, 1]) [2] 0 =
      some [PathCmd.move_to (0, 0), PathCmd.quadratic_to (1, 0) (1, 1),
        PathCmd.close] := by
  simp [ft_points, spec_contours, contour_slice, spec_walk, ft_conv_0,
    ft_conv_64, FT_POINT_TAG_ON_CURVE, FT_POINT_TAG_CUBIC_CONTROL,
    land_one_one, land_zero_one, land_zero_two]

theorem spec_cubic_example :
    spec_contours (ft_points [(0, 0), (64, 0), (64, 64), (0, 64)]
        [1, 2, 2, 1]) [3] 0 =
      some [PathCmd.move_to (0, 0), PathCmd.cubic_to (1, 0) (1, 1) (0, 1),
        PathCmd.close] := by
  simp [ft_points, spec_contours, contour_slice, spec_walk, ft_conv_0,
    ft_conv_64, FT_POINT_TAG_ON_CURVE, FT_POINT_TAG_CUBIC_CONTROL,
    land_one_one, land_two_one, land_two_two]

/-- C1: for every glyph whose outline data is a well-formed sequence of
contours — the two point arrays have equal length, every declared last
index lies inside them, and each contour's tag sequence leaves enough
following points for every off-curve point (which is exactly when the
spec-side decoder `spec_contours` succeeds) — `Font::outline` emits, per
contour, a `move_to` for the contour's first point regardless of its tag;
then, for each remaining point walked in order up to and including the
contour's last index, a `line_to` if the point is on-curve, a `cubic_to`
consuming the two following points as second control and endpoint if the
point is off-curve with the cubic-control bit set, and a `quadratic_to`
consuming the one following point as endpoint otherwise; and finally
exactly one `close`.  In particular a single-contour glyph tagged
[on, off(quad), on] yields exactly `move_to, quadratic_to, close`, and one
tagged [on, off(cubic), off(cubic), on] yields exactly
`move_to, cubic_to, close`. -/
theorem c1_outline_emits_spec_commands
    (pts : List (ℤ × ℤ)) (tags : List ℤ) (contours : List ℕ)
    (cs : List PathCmd)
    (hlen : tags.length = pts.length)
    (hbound : ∀ l ∈ contours, l < pts.length)
    (hwf : spec_contours (ft_points pts tags) contours 0 = some cs) :
    outline_decode pts tags contours = some cs ∧
    outline_decode [(0, 0), (64, 0), (64, 64)] [1, 0, 1] [2] =
      some [PathCmd.move_to (0, 0), PathCmd.quadratic_to (1, 0) (1, 1),
        PathCmd.close] ∧
    outline_decode [(0, 0), (64, 0), (64, 64), (0, 64)] [1, 2, 2, 1] [3] =
      some [PathCmd.move_to (0, 0), PathCmd.cubic_to (1, 0) (1, 1) (0, 1),
        PathCmd.close] := by
  refine ⟨outline_go_eq_spec pts tags hlen contours 0 cs hbound hwf, ?_, ?_⟩
  · exact outline_go_eq_spec _ _ (by decide) _ 0 _ (by decide) spec_quad_example
  · exact outline_go_eq_spec _ _ (by decide) _ 0 _ (by decide) spec_cubic_example

/-- Witness for C1: the hypotheses hold at the concrete quadratic
single-contour glyph, and the decoder emits move, quadratic, close. -/
theorem c1_witness :
    outline_decode [(0, 0), (64, 0), (64, 64)] [1, 0, 1] [2] =
      some [PathCmd.move_to (0, 0), PathCmd.quadratic_to (1, 0) (1, 1),
        PathCmd.close] :=
  (c1_outline_emits_spec_commands [(0, 0), (64, 0), (64, 64)] [1, 0, 1] [2]
    [PathCmd.move_to (0, 0), PathCmd.quadratic_to (1, 0) (1, 1),
      PathCmd.close]
    (by decide) (by decide) spec_quad_example).1

/-- C9: point consumption is guarded: `get_point` yields a point only when
the running index is at most the contour's declared last index, and fails
(the assertion) whenever the index has passed it; and on the malformed
single-contour glyph tagged [on, off(quad)] — whose last point is
off-curve and so requires a following point beyond the contour end — the
decoder fails at the guard instead of reading a point past the contour's
declared last index. -/
theorem c9_point_consumption_guarded :
    (∀ (pts : List (ℤ × ℤ)) (tags : List ℤ) (last idx : ℕ)
        (r : (ℚ × ℚ) × ℤ),
        get_point pts tags last idx = some r → idx ≤ last) ∧
    (∀ (pts : List (ℤ × ℤ)) (tags : List ℤ) (last idx : ℕ),
        last < idx → get_point pts tags last idx = none) ∧
    outline_decode [(0, 0), (64, 0)] [1, 0] [1] = none := by
  refine ⟨?_, ?_, ?_⟩
  · intro pts tags last idx r hr
    by_contra hgt
    rw [get_point, if_neg hgt] at hr
    exact Option.noConfusion hr
  · intro pts tags last idx hlt
    rw [get_point, if_neg (by omega)]
  · have g0 : get_point [(0, 0), (64, 0)] [1, 0] 1 0 = some ((0, 0), 1) := by
      simp [get_point, ft_conv_0]
    have g1 : get_point [(0, 0), (64, 0)] [1, 0] 1 1 = some ((1, 0), 0) := by
      simp [get_point, ft_conv_0, ft_conv_64]
    have g2 : get_point [(0, 0), (64, 0)] [1, 0] 1 2 = none := by
      rw [get_point, if_neg (by omega)]
    have hrest : contour_rest [(0, 0), (64, 0)] [1, 0] 1 1 = none := by
      rw [contour_rest, dif_pos (by omega), g1]
      dsimp only
      rw [if_neg (by simp [FT_POINT_TAG_ON_CURVE, land_zero_one]), g2]
    simp only [outline_decode, outline_go, g0, hrest]

/-- Witness for C9: the guard fires at a concrete out-of-contour read, and
the malformed glyph decode fails. -/
theorem c9_witness :
    get_point [((0 : ℤ), (0 : ℤ))] [(1 : ℤ)] 0 1 = none ∧
    outline_decode [(0, 0), (64, 0)] [1, 0] [1] = none :=
  ⟨c9_point_consumption_guarded.2.1 [(0, 0)] [1] 0 1 (by decide),
   c9_point_consumption_guarded.2.2⟩

/-! ## Loading (`Font::from_bytes` / `Font::from_file`, lines 72-109) -/

/-- Outcome of a load operation: success, the recoverable `Err` value of
the Rust `Result`, or a fatal panic from a failed `assert_eq!`. -/
inductive LoadOutcome
  | ok
  | err
  | fatal
deriving DecidableEq, Repr

/-- The native-engine call surface the loader touches when loading,
abstracted: the error code `FT_New_Memory_Face` returns for a given byte
buffer and face index (0 is success, nonzero rejects malformed data or an
out-of-range face index).  The engine is opaque to the loader; only the
return code is inspected. -/
structure Engine where
  newMemoryFace : List ℕ → ℕ → ℤ

/-- Embedding of `Font::from_bytes` (lines 72-89): the return code of
`FT_New_Memory_Face` goes through `assert_eq!(…, 0)`, so a nonzero code
panics the process; on success the face is set up and `Ok` returned.  No
code path constructs the `Err` value. -/
def from_bytes (e : Engine) (font_data : List ℕ) (font_index : ℕ) :
    LoadOutcome :=
  if e.newMemoryFace font_data font_index = 0 then LoadOutcome.ok
  else LoadOutcome.fatal

/-- Embedding of `Font::from_file` (lines 91-109): a memory-map failure is
returned as `Err` (the `try!`); after mapping, the same `assert_eq!` as in
`from_bytes` applies to the native return code. -/
def from_file (e : Engine) (mmap_ok : Bool) (mapped : List ℕ)
    (font_index : ℕ) : LoadOutcome :=
  if mmap_ok then
    if e.newMemoryFace mapped font_index = 0 then LoadOutcome.ok
    else LoadOutcome.fatal
  else LoadOutcome.err

/-- Counterexample to C2: with a native engine that rejects the buffer
`[0]` at face index 0 (nonzero return code, as FreeType produces for
malformed font data or an out-of-range index), `from_bytes` hits the
failed assertion — a panic — and does not return the recoverable error
value. -/
theorem c2_counterexample :
    from_bytes ⟨fun _ _ => 1⟩ [0] 0 = LoadOutcome.fatal ∧
    from_bytes ⟨fun _ _ => 1⟩ [0] 0 ≠ LoadOutcome.err := by
  decide

/-- C2 amended: when the native face creation fails (malformed bytes or
out-of-range face index), `from_bytes` and `from_file` panic on the
`assert_eq!` instead of returning an error; the only recoverable `Err`
surfaced by the load operations is `from_file`'s memory-mapping failure,
and it carries no payload (the error type is the unit type, not a
`ParseError`). -/
theorem c2_load_failure_panics (e : Engine) (data mapped : List ℕ)
    (idx : ℕ) :
    (e.newMemoryFace data idx ≠ 0 →
      from_bytes e data idx = LoadOutcome.fatal) ∧
    (e.newMemoryFace data idx = 0 →
      from_bytes e data idx = LoadOutcome.ok) ∧
    (e.newMemoryFace mapped idx ≠ 0 →
      from_file e true mapped idx = LoadOutcome.fatal) ∧
    from_file e false mapped idx = LoadOutcome.err := by
  refine ⟨fun h => ?_, fun h => ?_, fun h => ?_, ?_⟩
  · simp [from_bytes, h]
  · simp [from_bytes, h]
  · simp [from_file, h]
  · simp [from_file]

/-- Witness for C2's amended statement at concrete engines and inputs. -/
theorem c2_witness :
    from_bytes ⟨fun _ _ => 1⟩ [0] 0 = LoadOutcome.fatal ∧
    from_bytes ⟨fun _ _ => 0⟩ [0] 0 = LoadOutcome.ok ∧
    from_file ⟨fun _ _ => 1⟩ true [0] 0 = LoadOutcome.fatal ∧
    from_file ⟨fun _ _ => 1⟩ false [0] 0 = LoadOutcome.err :=
  ⟨(c2_load_failure_panics ⟨fun _ _ => 1⟩ [0] [0] 0).1 (by decide),
   (c2_load_failure_panics ⟨fun _ _ => 0⟩ [0] [0] 0).2.1 (by decide),
   (c2_load_failure_panics ⟨fun _ _ => 1⟩ [0] [0] 0).2.2.1 (by decide),
   (c2_load_failure_panics ⟨fun _ _ => 1⟩ [0] [0] 0).2.2.2⟩

/-! ## Clone / Drop reference counting (lines 401-421) -/

/-- A native refcounting call on the shared `FT_Face`. -/
inductive RcEvent
  | reference_face
  | done_face
deriving DecidableEq, Repr

/-- An operation performed on the set of outstanding handles. -/
inductive HandleOp
  | clone
  | drop
deriving DecidableEq, Repr

/-- Embedding of `impl Clone for Font` (lines 401-411): exactly one
`FT_Reference_Face` call, then one more live handle to the same
pointer. -/
def clone_events : List RcEvent := [RcEvent.reference_face]

/-- Embedding of `impl Drop for Font` (lines 413-421) for a handle whose
`freetype_face` pointer is non-null (which holds for every handle built by
`from_bytes`, `from_file` or `clone`): exactly one `FT_Done_Face` call. -/
def drop_events : List RcEvent := [RcEvent.done_face]

/-- Run a sequence of clone/drop operations starting from `live`
outstanding handles that share one native face, collecting the native
refcounting calls.  Rust ownership drops each handle exactly once, so a
trace that drops when no handle is live is rejected (`none`). -/
def run_handles : ℕ → List HandleOp → Option (ℕ × List RcEvent)
  | live, [] => some (live, [])
  | live, HandleOp.clone :: ops =>
    (run_handles (live + 1) ops).map fun r => (r.1, clone_events ++ r.2)
  | live, HandleOp.drop :: ops =>
    match live with
    | 0 => none
    | l + 1 => (run_handles l ops).map fun r => (r.1, drop_events ++ r.2)

theorem run_handles_counts :
    ∀ (ops : List HandleOp) (live fin : ℕ) (evs : List RcEvent),
      run_handles live ops = some (fin, evs) →
      evs.count RcEvent.reference_face = ops.count HandleOp.clone ∧
      evs.count RcEvent.done_face = ops.count HandleOp.drop ∧
      live + ops.count HandleOp.clone = fin + ops.count HandleOp.drop := by
  intro ops
  induction ops with
  | nil =>
    intro live fin evs hrun
    simp only [run_handles, Option.some.injEq, Prod.mk.injEq] at hrun
    obtain ⟨h1, h2⟩ := hrun
    subst h1
    subst h2
    simp
  | cons op ops ih =>
    intro live fin evs hrun
    cases op with
    | clone =>
      simp only [run_handles] at hrun
      cases hr : run_handles (live + 1) ops with
      | none => rw [hr] at hrun; exact absurd hrun (by simp)
      | some r =>
        obtain ⟨f, es⟩ := r
        obtain ⟨ha, hb, hc⟩ := ih (live + 1) f es hr
        rw [hr] at hrun
        simp only [Option.map_some', Option.some.injEq, Prod.mk.injEq]
          at hrun
        obtain ⟨h1, h2⟩ := hrun
        subst h1
        subst h2
        refine ⟨?_, ?_, ?_⟩ <;>
          simp [clone_events, List.count_cons, ha, hb] <;> omega
    | drop =>
      cases live with
      | zero =>
        simp only [run_handles] at hrun
        exact absurd hrun (by simp)
      | succ l =>
        simp only [run_handles] at hrun
        cases hr : run_handles l ops with
        | none => rw [hr] at hrun; exact absurd hrun (by simp)
        | some r =>
          obtain ⟨f, es⟩ := r
          obtain ⟨ha, hb, hc⟩ := ih l f es hr
          rw [hr] at hrun
          simp only [Option.map_some', Option.some.injEq, Prod.mk.injEq]
            at hrun
          obtain ⟨h1, h2⟩ := hrun
          subst h1
          subst h2
          refine ⟨?_, ?_, ?_⟩ <;>
            simp [drop_events, List.count_cons, ha, hb] <;> omega

/-- C3: each clone performs exactly one native acquire
(`FT_Reference_Face`) and each drop of a non-null handle exactly one
native release (`FT_Done_Face`); and for every sequence of clone and drop
operations starting from the single handle produced by loading (whose
creation acquired the native object once), the releases observed balance
the acquisitions: releases + live handles = 1 + clone-acquires at every
accepted trace — in particular never more releases than acquisitions
(no double release, no release while a handle is still live beyond the
balance) — and once every outstanding handle is dropped the native object
has been released exactly as many times as it was acquired. -/
theorem c3_refcount_discipline :
    clone_events = [RcEvent.reference_face] ∧
    drop_events = [RcEvent.done_face] ∧
    (∀ (ops : List HandleOp) (fin : ℕ) (evs : List RcEvent),
      run_handles 1 ops = some (fin, evs) →
      evs.count RcEvent.reference_face = ops.count HandleOp.clone ∧
      evs.count RcEvent.done_face = ops.count HandleOp.drop ∧
      evs.count RcEvent.done_face + fin =
        1 + evs.count RcEvent.reference_face ∧
      (fin = 0 →
        evs.count RcEvent.done_face =
          1 + evs.count RcEvent.reference_face)) := by
  refine ⟨rfl, rfl, fun ops fin evs hrun => ?_⟩
  obtain ⟨ha, hb, hc⟩ := run_handles_counts ops 1 fin evs hrun
  exact ⟨ha, hb, by omega, fun hf => by omega⟩

/-- Witness for C3 on the trace clone, drop, drop: one acquire beyond the
creation, two releases, balance restored. -/
theorem c3_witness :
    ([RcEvent.reference_face, RcEvent.done_face, RcEvent.done_face] :
        List RcEvent).count RcEvent.done_face =
      1 + ([RcEvent.reference_face, RcEvent.done_face, RcEvent.done_face] :
        List RcEvent).count RcEvent.reference_face :=
  (c3_refcount_discipline.2.2 [HandleOp.clone, HandleOp.drop, HandleOp.drop]
      0 [RcEvent.reference_face, RcEvent.done_face, RcEvent.done_face]
      (by decide)).2.2.2 (by decide)

/-! ## The abstract native face state

`FT_Face` state as this loader observes it through native calls.  String
fields read with `CStr::to_str().unwrap()` (PostScript, family and style
names) are modelled as already-decoded Unicode scalar lists — the unwraps
are outside every claim under review.  FFI results are record fields: the
OS/2 table pointer as an `Option`, the two `FT_Get_PS_Font_Value` return
values plus the fetched buffer, the `FT_Get_Sfnt_Name` records in index
order, and the charmap behind `FT_Get_Char_Index`. -/

/-- The OS/2 table fields the loader reads (`TT_OS2`). -/
structure OS2Table where
  usWidthClass : ℕ
  usWeightClass : ℕ
  sCapHeight : ℤ
  sxHeight : ℤ
deriving DecidableEq

/-- One name-table record (`FT_SfntName`): identifiers plus the raw bytes
of the name string. -/
structure SfntName where
  platform_id : ℕ
  encoding_id : ℕ
  language_id : ℕ
  name_id : ℕ
  string : List ℕ
deriving DecidableEq

/-- The loaded `FT_Face` state reachable from the loader. -/
structure FaceRec where
  postscript_name : List ℕ
  family_name : List ℕ
  style_name : List ℕ
  style_flags : ℤ
  face_flags : ℤ
  units_per_EM : ℕ
  ascender : ℤ
  descender : ℤ
  height : ℤ
  underline_position : ℤ
  underline_thickness : ℤ
  os2 : Option OS2Table
  ps_full_name_size : ℤ
  ps_full_name_code : ℤ
  ps_full_name_bytes : List ℕ
  sfnt_names : List SfntName
  char_index : Char → Option ℕ

/-! ## UTF-8 / UTF-16 decoding (Rust `String::from_utf8` / `from_utf16`) -/

/-- Is `b` a UTF-8 continuation byte (`0x80–0xBF`)? -/
def utf8_cont (b : ℕ) : Bool := decide (0x80 ≤ b ∧ b ≤ 0xBF)

/-- Admissible ranges of the first continuation byte after a UTF-8 leading
byte `b`, per the Unicode table (rejecting overlong forms, surrogates and
values beyond U+10FFFF). -/
def utf8_b1_ok (b b1 : ℕ) : Bool :=
  if b = 0xE0 then decide (0xA0 ≤ b1 ∧ b1 ≤ 0xBF)
  else if b = 0xED then decide (0x80 ≤ b1 ∧ b1 ≤ 0x9F)
  else if b = 0xF0 then decide (0x90 ≤ b1 ∧ b1 ≤ 0xBF)
  else if b = 0xF4 then decide (0x80 ≤ b1 ∧ b1 ≤ 0x8F)
  else utf8_cont b1

/-- Decode a UTF-8 byte sequence to Unicode scalar values exactly as
`String::from_utf8` accepts it; `none` on invalid input. -/
def decode_utf8 : List ℕ → Option (List ℕ)
  | [] => some []
  | b :: rest =>
    if b ≤ 0x7F then (decode_utf8 rest).map fun s => b :: s
    else if 0xC2 ≤ b ∧ b ≤ 0xDF then
      match rest with
      | b1 :: r =>
        if utf8_cont b1 then
          (decode_utf8 r).map fun s => ((b - 0xC0) * 64 + (b1 - 0x80)) :: s
        else none
      | [] => none
    else if 0xE0 ≤ b ∧ b ≤ 0xEF then
      match rest with
      | b1 :: b2 :: r =>
        if utf8_b1_ok b b1 && utf8_cont b2 then
          (decode_utf8 r).map fun s =>
            ((b - 0xE0) * 4096 + (b1 - 0x80) * 64 + (b2 - 0x80)) :: s
        else none
      | _ => none
    else if 0xF0 ≤ b ∧ b ≤ 0xF4 then
      match rest with
      | b1 :: b2 :: b3 :: r =>
        if utf8_b1_ok b b1 && utf8_cont b2 && utf8_cont b3 then
          (decode_utf8 r).map fun s =>
            ((b - 0xF0) * 262144 + (b1 - 0x80) * 4096 + (b2 - 0x80) * 64 +
              (b3 - 0x80)) :: s
        else none
      | _ => none
    else none

/-- Big-endian pairing of bytes into 16-bit units, as the
`read_u16::<BigEndian>` loop of `get_type_1_or_sfnt_name` does; an odd
trailing byte makes its `unwrap` panic (`none`). -/
def read_u16_be : List ℕ → Option (List ℕ)
  | [] => some []
  | [_] => none
  | b0 :: b1 :: rest => (read_u16_be rest).map fun l => (b0 * 256 + b1) :: l

/-- Decode UTF-16 code units to Unicode scalar values exactly as
`String::from_utf16` accepts them; `none` on an unpaired surrogate. -/
def decode_utf16 : List ℕ → Option (List ℕ)
  | [] => some []
  | [u] => if u < 0xD800 ∨ 0xE000 ≤ u then some [u] else none
  | u :: v :: rest =>
    if u < 0xD800 ∨ 0xE000 ≤ u then
      (decode_utf16 (v :: rest)).map fun s => u :: s
    else if u ≤ 0xDBFF ∧ 0xDC00 ≤ v ∧ v ≤ 0xDFFF then
      (decode_utf16 rest).map fun s =>
        (0x10000 + (u - 0xD800) * 1024 + (v - 0xDC00)) :: s
    else none

/-! ## Name resolution (`get_type_1_or_sfnt_name`, lines 350-392) -/

def TT_NAME_ID_FULL_NAME : ℕ := 4

/-- Outcome of `get_type_1_or_sfnt_name`: a found string, no string, or a
panic from the `unwrap` inside the scan. -/
inductive NameOutcome
  | found (s : List ℕ)
  | not_found
  | fatal
deriving DecidableEq

/-- The name-table scan (lines 368-388): every record is visited in
order; a record whose name id differs is skipped; a matching record's
bytes are paired big-endian (an odd byte count panics the `unwrap`) and
decoded as UTF-16 regardless of the record's declared platform/encoding
(the source carries a FIXME noting encodings are not checked); a record
whose bytes are not valid UTF-16 is skipped and the scan continues. -/
def scan_sfnt_names : List SfntName → ℕ → NameOutcome
  | [], _ => NameOutcome.not_found
  | n :: rest, sfnt_id =>
    if n.name_id ≠ sfnt_id then scan_sfnt_names rest sfnt_id
    else
      match read_u16_be n.string with
      | none => NameOutcome.fatal
      | some units =>
        match decode_utf16 units with
        | some s => NameOutcome.found s
        | none => scan_sfnt_names rest sfnt_id

/-- Embedding of `Font::get_type_1_or_sfnt_name` (lines 350-392) at the
full-name ids: when the PS-dictionary probe reports a positive size and
the fetch succeeds, the buffer's UTF-8 decoding is returned —
`String::from_utf8(buffer).ok()` maps an invalid buffer to `None`, and
that `return` means the name table is NOT scanned; the scan runs only
when the probe reports no entry or the fetch call fails. -/
def get_type_1_or_sfnt_name (face : FaceRec) (sfnt_id : ℕ) : NameOutcome :=
  if 0 < face.ps_full_name_size then
    if face.ps_full_name_code = 0 then
      match decode_utf8 face.ps_full_name_bytes with
      | some s => NameOutcome.found s
      | none => NameOutcome.not_found
    else scan_sfnt_names face.sfnt_names sfnt_id
  else scan_sfnt_names face.sfnt_names sfnt_id

/-- The display name computed by `Font::descriptor` (lines 195-197): the
full-name lookup with the family name as fallback; `none` models the
panic propagating from the scan. -/
def display_name (face : FaceRec) : Option (List ℕ) :=
  match get_type_1_or_sfnt_name face TT_NAME_ID_FULL_NAME with
  | NameOutcome.found s => some s
  | NameOutcome.not_found => some face.family_name
  | NameOutcome.fatal => none

/-- Is a name record stored in a UTF-16BE-compatible encoding (Unicode
platform, or Windows platform with a UTF-16 encoding id)?  Used only by
the claimed resolution order below — the source never performs this
check. -/
def utf16_be_compatible (n : SfntName) : Bool :=
  decide (n.platform_id = 0 ∨
    (n.platform_id = 3 ∧ (n.encoding_id = 1 ∨ n.encoding_id = 10)))

/-- Claim C6's scan, written from its wording: records in incompatible
encodings are skipped rather than decoded. -/
def scan_sfnt_claimed : List SfntName → Option (List ℕ)
  | [] => none
  | n :: rest =>
    if n.name_id = TT_NAME_ID_FULL_NAME ∧ utf16_be_compatible n = true then
      match read_u16_be n.string with
      | none => scan_sfnt_claimed rest
      | some units =>
        match decode_utf16 units with
        | some s => some s
        | none => scan_sfnt_claimed rest
    else scan_sfnt_claimed rest

/-- Claim C6's display-name resolution, written from its wording: (1) the
PS full-name entry when present and valid UTF-8; (2) otherwise the first
full-name name-table record decoded as UTF-16BE, skipping records in
incompatible encodings; (3) otherwise the family name. -/
def display_name_claimed (face : FaceRec) : Option (List ℕ) :=
  if 0 < face.ps_full_name_size ∧ face.ps_full_name_code = 0 ∧
      (decode_utf8 face.ps_full_name_bytes).isSome = true then
    decode_utf8 face.ps_full_name_bytes
  else
    match scan_sfnt_claimed face.sfnt_names with
    | some s => some s
    | none => some face.family_name

/-- C6's amended resolution order, following the code: (1) when the PS
full-name entry is present and fetched, a valid-UTF-8 buffer is the
display name, and an invalid one falls directly to the family name — the
name table is not scanned; (2) otherwise the first name-table record with
the full-name id whose bytes decode as valid UTF-16BE, every record being
decoded that way regardless of its declared encoding (an odd-length
record panics); (3) otherwise the family name. -/
def display_name_amended (face : FaceRec) : Option (List ℕ) :=
  if 0 < face.ps_full_name_size ∧ face.ps_full_name_code = 0 then
    match decode_utf8 face.ps_full_name_bytes with
    | some s => some s
    | none => some face.family_name
  else
    match scan_sfnt_names face.sfnt_names TT_NAME_ID_FULL_NAME with
    | NameOutcome.found s => some s
    | NameOutcome.not_found => some face.family_name
    | NameOutcome.fatal => none

/-! ## Descriptor and metrics (lines 185-218 and 322-340) -/

/-- FreeType's `FT_STYLE_FLAG_ITALIC`. -/
def FT_STYLE_FLAG_ITALIC : ℤ := 1

/-- FreeType's `FT_FACE_FLAG_FIXED_WIDTH`. -/
def FT_FACE_FLAG_FIXED_WIDTH : ℤ := 4

/-- FreeType's `FT_FACE_FLAG_VERTICAL`. -/
def FT_FACE_FLAG_VERTICAL : ℤ := 32

/-- Modelled from the spec: `FONT_STRETCH_MAPPING` lives in
`src/descriptor.rs`, which is not among the sources under review; §4.4 of
the spec describes it as "a fixed width-class → stretch-percentage table"
indexed by OS/2 width classes 1–9, so it is modelled as the standard
nine-entry table of stretch percentages (only its length matters to the
claims). -/
def FONT_STRETCH_MAPPING : List ℚ :=
  [1 / 2, 5 / 8, 3 / 4, 7 / 8, 1, 9 / 8, 5 / 4, 3 / 2, 2]

/-- The index expression `(usWidthClass as usize) - 1` of line 213, with
the usize subtraction wrapping modulo `2 ^ 64` (release builds; a debug
build panics on the underflow when `usWidthClass = 0`). -/
def stretch_index (usWidthClass : ℕ) : ℕ :=
  (usWidthClass + (2 ^ 64 - 1)) % 2 ^ 64

/-- The unchecked `FONT_STRETCH_MAPPING[…]` lookup of line 213; `none`
models the out-of-bounds indexing panic. -/
def stretch_lookup (usWidthClass : ℕ) : Option ℚ :=
  FONT_STRETCH_MAPPING[stretch_index usWidthClass]?

/-- The identity/style metadata bundle built by `Font::descriptor`. -/
structure Descriptor where
  postscript_name : List ℕ
  display_name : List ℕ
  family_name : List ℕ
  style_name : List ℕ
  stretch : ℚ
  weight : ℕ
  italic : Bool
  monospace : Bool
  vertical : Bool
deriving DecidableEq

/-- Embedding of `Font::descriptor` (lines 185-218): names are read, the
display name resolved (a panic there aborts first), then the OS/2 table
pointer — fetched with no null check — is dereferenced for the stretch
lookup and the weight.  `none` models a panic or the null dereference. -/
def descriptor (face : FaceRec) : Option Descriptor :=
  match display_name face with
  | none => none
  | some dname =>
    match face.os2 with
    | none => none
    | some os2 =>
      match stretch_lookup os2.usWidthClass with
      | none => none
      | some st =>
        some { postscript_name := face.postscript_name
               display_name := dname
               family_name := face.family_name
               style_name := face.style_name
               stretch := st
               weight := os2.usWeightClass
               italic :=
                 decide (Int.land face.style_flags FT_STYLE_FLAG_ITALIC ≠ 0)
               monospace :=
                 decide
                   (Int.land face.face_flags FT_FACE_FLAG_FIXED_WIDTH ≠ 0)
               vertical :=
                 decide (Int.land face.face_flags FT_FACE_FLAG_VERTICAL ≠ 0) }

/-- The face-wide metric bundle built by `Font::metrics`. -/
structure Metrics where
  units_per_em : ℕ
  ascent : ℤ
  descent : ℤ
  line_gap : ℤ
  underline_position : ℤ
  underline_thickness : ℤ
  cap_height : ℤ
  x_height : ℤ
deriving DecidableEq

/-- Wrap an integer into the i16 range (two's complement). -/
def wrap_i16 (z : ℤ) : ℤ := (z + 32768) % 65536 - 32768

/-- Embedding of `Font::metrics` (lines 322-340).  The sums are i16
arithmetic in the source: release builds wrap (modelled by `wrap_i16`),
debug builds panic on overflow; both agree with the exact value whenever
the sums stay in i16 range, which is what the C7 theorem assumes.  The
division by 2 is Rust `i16` division, truncating toward zero
(`Int.tdiv`).  The OS/2 pointer is dereferenced with no null check. -/
def metrics (face : FaceRec) : Option Metrics :=
  match face.os2 with
  | none => none
  | some os2 =>
    some { units_per_em := face.units_per_EM
           ascent := face.ascender
           descent := face.descender
           line_gap :=
             wrap_i16 (wrap_i16 (face.height + face.descender) -
               face.ascender)
           underline_position :=
             wrap_i16 (face.underline_position +
               Int.tdiv face.underline_thickness 2)
           underline_thickness := face.underline_thickness
           cap_height := os2.sCapHeight
           x_height := os2.sxHeight }

/-- Model of `FT_Get_Char_Index`: FreeType resolves a character through
the face's charmap and returns the glyph index, or 0 when the character
has no glyph (FreeType's documented missing-glyph convention). -/
def FT_Get_Char_Index (face : FaceRec) (character : Char) : ℕ :=
  (face.char_index character).getD 0

/-- Embedding of `Font::glyph_for_char` (lines 220-224): the native index
is returned wrapped in `Some`, unconditionally — there is no failing
path. -/
def glyph_for_char (face : FaceRec) (character : Char) : Option ℕ :=
  some (FT_Get_Char_Index face character)

/-- A concrete OS/2 table used by witnesses. -/
def test_os2 : OS2Table :=
  { usWidthClass := 5
    usWeightClass := 400
    sCapHeight := 700
    sxHeight := 480 }

/-- A concrete face used by witnesses. -/
def test_face : FaceRec :=
  { postscript_name := [84]
    family_name := [70]
    style_name := [82]
    style_flags := 0
    face_flags := 0
    units_per_EM := 1000
    ascender := 800
    descender := -200
    height := 1200
    underline_position := -100
    underline_thickness := 50
    os2 := some test_os2
    ps_full_name_size := 0
    ps_full_name_code := 0
    ps_full_name_bytes := []
    sfnt_names := []
    char_index := fun _ => none }

/-- A face whose PS full-name entry is present and fetched but not valid
UTF-8 (`[0xFF]`), while its name table holds a valid UTF-16BE full-name
record for "A". -/
def face_bad_ps : FaceRec :=
  { test_face with
    ps_full_name_size := 1
    ps_full_name_code := 0
    ps_full_name_bytes := [255]
    sfnt_names := [{ platform_id := 3, encoding_id := 1, language_id := 0,
                     name_id := 4, string := [0, 65] }] }

/-- A face with no PS entry whose only full-name record is declared on the
Macintosh platform (an encoding incompatible with UTF-16BE), with bytes
that nevertheless decode as UTF-16BE "A". -/
def face_mac_record : FaceRec :=
  { test_face with
    ps_full_name_size := 0
    sfnt_names := [{ platform_id := 1, encoding_id := 0, language_id := 0,
                     name_id := 4, string := [0, 65] }] }

/-- Counterexample to C6: the code's display name differs from the
claim's resolution order on two concrete faces.  On `face_bad_ps` the PS
entry is present but invalid UTF-8: the claim's order falls through to
the name table (name "A" = `[65]`), while the code returns `None` from
`get_type_1_or_sfnt_name` without scanning and so falls to the family
name `[70]`.  On `face_mac_record`, the claim's order skips the
Macintosh-encoded record, falling to the family name, while the code
decodes it as UTF-16BE and returns "A". -/
theorem c6_counterexample :
    display_name face_bad_ps = some [70] ∧
    display_name_claimed face_bad_ps = some [65] ∧
    display_name face_bad_ps ≠ display_name_claimed face_bad_ps ∧
    display_name face_mac_record = some [65] ∧
    display_name_claimed face_mac_record = some [70] ∧
    display_name face_mac_record ≠ display_name_claimed face_mac_record := by
  decide

/-- C6 amended: the display name is resolved as follows: (1) when the PS
full-name entry is present and fetched, a valid-UTF-8 buffer is the
display name, and an invalid one falls directly to the family name,
without scanning the name table; (2) otherwise the first name-table
record with the full-name id whose bytes decode as valid UTF-16BE — every
matching record is decoded as UTF-16BE regardless of its declared
platform/encoding, skipping only records whose bytes are not valid
UTF-16 (an odd-length record panics the scan); (3) otherwise the family
name. -/
theorem c6_display_name_resolution (face : FaceRec) :
    display_name face = display_name_amended face := by
  unfold display_name display_name_amended get_type_1_or_sfnt_name
  by_cases h1 : 0 < face.ps_full_name_size
  · by_cases h2 : face.ps_full_name_code = 0
    · rw [if_pos h1, if_pos h2, if_pos ⟨h1, h2⟩]
      cases decode_utf8 face.ps_full_name_bytes <;> rfl
    · rw [if_pos h1, if_neg h2, if_neg (by tauto)]
  · rw [if_neg h1, if_neg (by tauto)]

/-- C5: the stretch class is computed by indexing the fixed stretch table
at position `usWidthClass − 1` with no bounds check: for every width
class in [1, 9] the lookup is in bounds; width class 0 underflows the
usize subtraction to `2 ^ 64 − 1` and its lookup, like that of any width
class above 9, is out of bounds. -/
theorem c5_stretch_lookup_unchecked :
    (∀ w, 1 ≤ w → w ≤ 9 → (stretch_lookup w).isSome = true) ∧
    stretch_index 0 = 2 ^ 64 - 1 ∧
    stretch_lookup 0 = none ∧
    stretch_lookup 10 = none := by
  refine ⟨?_, by decide, by decide, by decide⟩
  intro w h1 h9
  interval_cases w <;> decide

/-- Witness for C5 at width class 5 (the "normal" class). -/
theorem c5_witness : (stretch_lookup 5).isSome = true :=
  c5_stretch_lookup_unchecked.1 5 (by decide) (by decide)

theorem wrap_i16_eq_self {z : ℤ} (hlo : -32768 ≤ z) (hhi : z < 32768) :
    wrap_i16 z = z := by
  unfold wrap_i16
  rw [Int.emod_eq_of_lt (by omega) (by omega)]
  omega

/-- C7: for every face with an OS/2 table whose metric combinations stay
inside the i16 range (the native fields are i16 and the source combines
them in i16 arithmetic), `metrics` returns units_per_em equal to the
face's declared units-per-EM, ascent and descent read directly from the
native face-wide fields, line gap = face height + descent − ascent,
underline position = the native underline position plus half the
underline thickness (integer half), and cap height and x height from the
OS/2 table. -/
theorem c7_metrics_fields (face : FaceRec) (os2 : OS2Table)
    (hos2 : face.os2 = some os2)
    (h1 : -32768 ≤ face.height + face.descender ∧
      face.height + face.descender < 32768)
    (h2 : -32768 ≤ face.height + face.descender - face.ascender ∧
      face.height + face.descender - face.ascender < 32768)
    (h3 : -32768 ≤ face.underline_position +
        Int.tdiv face.underline_thickness 2 ∧
      face.underline_position + Int.tdiv face.underline_thickness 2 <
        32768) :
    metrics face = some
      { units_per_em := face.units_per_EM
        ascent := face.ascender
        descent := face.descender
        line_gap := face.height + face.descender - face.ascender
        underline_position :=
          face.underline_position + Int.tdiv face.underline_thickness 2
        underline_thickness := face.underline_thickness
        cap_height := os2.sCapHeight
        x_height := os2.sxHeight } := by
  unfold metrics
  rw [hos2]
  rw [wrap_i16_eq_self h1.1 h1.2, wrap_i16_eq_self h2.1 h2.2,
    wrap_i16_eq_self h3.1 h3.2]

/-- Witness for C7 on the concrete test face (units-per-EM 1000, ascender
800, descender −200, height 1200, underline −100 with thickness 50). -/
theorem c7_witness :
    metrics test_face = some
      { units_per_em := 1000
        ascent := 800
        descent := -200
        line_gap := 200
        underline_position := -75
        underline_thickness := 50
        cap_height := 700
        x_height := 480 } := by
  rw [c7_metrics_fields test_face test_os2 rfl (by decide) (by decide)
    (by decide)]
  decide

/-- C8: `glyph_for_char` never panics — it is total and always returns
`Some` of the native charmap lookup — and for a character absent from the
font's character map it surfaces glyph id 0, the notdef sentinel FreeType
maps "missing" to. -/
theorem c8_glyph_for_char_total (face : FaceRec) (c : Char) :
    (glyph_for_char face c).isSome = true ∧
    glyph_for_char face c = some (FT_Get_Char_Index face c) ∧
    (face.char_index c = none → glyph_for_char face c = some 0) := by
  refine ⟨rfl, rfl, fun h => ?_⟩
  simp [glyph_for_char, FT_Get_Char_Index, h]

/-- Witness for C8: on the test face, which maps no characters, the
character 'A' yields glyph 0, wrapped in `Some`. -/
theorem c8_witness :
    (glyph_for_char test_face 'A').isSome = true ∧
    glyph_for_char test_face 'A' = some 0 :=
  ⟨(c8_glyph_for_char_total test_face 'A').1,
   (c8_glyph_for_char_total test_face 'A').2.2 rfl⟩

/-- C10: `descriptor` and `metrics` dereference the OS/2-table pointer
returned by the native lookup unconditionally, with no null check: for
every face whose lookup returns null (no OS/2 table) both operations hit
the null dereference (modelled as the undefined outcome `none`) — the
unstated precondition is that the face has an OS/2 table — and `metrics`
is defined exactly when the table is present. -/
theorem c10_os2_deref_unchecked (face : FaceRec) :
    (face.os2 = none → descriptor face = none ∧ metrics face = none) ∧
    ((metrics face).isSome = true ↔ (face.os2).isSome = true) := by
  constructor
  · intro h
    constructor
    · cases hd : display_name face <;> simp [descriptor, hd, h]
    · simp [metrics, h]
  · cases h : face.os2 <;> simp [metrics, h]

/-- Witness for C10 on a face lacking the OS/2 table, plus the test face
with the table present. -/
theorem c10_witness :
    descriptor { test_face with os2 := none } = none ∧
    metrics { test_face with os2 := none } = none ∧
    ((metrics test_face).isSome = true ↔
      (test_face.os2).isSome = true) :=
  ⟨((c10_os2_deref_unchecked { test_face with os2 := none }).1 rfl).1,
   ((c10_os2_deref_unchecked { test_face with os2 := none }).1 rfl).2,
   (c10_os2_deref_unchecked test_face).2⟩

end FontKit
